import Mathlib

/-!
Shallow embedding of the convert2rhel action framework
(src/convert2rhel/actions/__init__.py) together with the Convert2rhelLatest
action (src/convert2rhel/actions/convert2rhel_latest.py), and theorems
settling the frozen claims about dependency resolution, stage execution,
failure handling and result classification.

Conventions of the embedding:
* Python exceptions are modelled with `Except PyError`.
* A generator (resolve_action_order) is modelled as the pair of the sequence
  of yielded values and the exception, if any, raised after the last yield.
* Python lists that are mutated in place (the successes/failures/skips
  accumulators of Stage.run) are modelled through an explicit store mapping
  list identities (natural numbers) to list contents, so that aliasing and
  in-place mutation are observable.
-/

/-- The STATUS_CODE dict (actions/__init__.py lines 92-99): ascending severity
scale mapping a status name to its fixed integer code. -/
def STATUS_CODE_LIST : List (String × Nat) :=
  [("SUCCESS", 0), ("WARNING", 300), ("SKIP", 450),
   ("OVERRIDABLE", 600), ("ERROR", 900), ("FATAL", 1200)]

/-- Dictionary lookup `STATUS_CODE[k]` for a string key; `none` models the
KeyError raised on a missing key. -/
def STATUS_CODE (k : String) : Option Nat :=
  (STATUS_CODE_LIST.find? (fun p => p.1 == k)).map Prod.snd

/-- Severity value of a status name that is present in the dict (used at call
sites where the key is a literal that exists, so no KeyError can occur). -/
def statusValue (k : String) : Nat := (STATUS_CODE k).getD 0

/-- What a concrete Action subclass's run() method does when it is invoked.
The decorator `_action_defaults_to_success` is applied to the *base*
`Action.run` only (lines 201-203), so whether the default-success wrapper
takes part depends on how the subclass overrides run(). -/
inductive Behavior where
  /-- run() delegates to the base class (super().run()), which is the
  decorated `Action.run`, and returns without setting any outcome field. -/
  | succeed
  /-- run() delegates to the decorated base and then calls
  `set_result(status, error_id, message)` with a string status name. -/
  | setResult (status : String) (error_id : String) (message : String)
  /-- run() raises an uncaught exception carrying the given text. -/
  | raiseExc (msg : String)
  /-- run() is an override that never calls the base entry point (as in
  `Convert2rhelLatest.run`) and returns without setting any outcome field. -/
  | plainReturn
deriving DecidableEq

/-- An Action class as the framework sees it: its `id`, its declared
`dependencies` (a sequence of ids), and the behavior of its run() method. -/
structure ActionCls where
  id : String
  dependencies : List String
  behavior : Behavior
deriving DecidableEq

/-- The per-instance state of an Action (attributes set in `Action.__init__`,
lines 189-199): outcome fields start at the unset sentinel None and
`_has_run` starts False. -/
structure ActionState where
  id : String
  dependencies : List String
  status : Option Nat
  message : Option String
  error_id : Option String
  has_run : Bool
deriving DecidableEq

/-- Constructing a fresh instance (`action = action_class()`, line 355). -/
def mkInstance (c : ActionCls) : ActionState :=
  { id := c.id, dependencies := c.dependencies, status := none,
    message := none, error_id := none, has_run := false }

/-- The value passed as the `status` parameter of `Action.set_result`. The
skip path passes the string "SKIP"; the unhandled-exception path passes the
integer `STATUS_CODE["ERROR"]` (line 379). -/
inductive StatusKey where
  | str (s : String)
  | int (n : Nat)
deriving DecidableEq

/-- Lookup of `STATUS_CODE[status]` inside set_result: the dict has only
string keys, so indexing it with an integer always raises KeyError. -/
def statusCodeLookup : StatusKey → Option Nat
  | .str s => STATUS_CODE s
  | .int _ => none

/-- DependencyError (lines 133-149): the exception message plus the two
non-standard attributes, which default to the empty list when the raise
site does not pass them as keyword arguments. -/
structure DependencyError where
  message : String
  unresolved_actions : List ActionCls
  resolved_actions : List ActionCls
deriving DecidableEq

/-- The exceptions that can cross function boundaries in this embedding. -/
inductive PyError where
  /-- KeyError from indexing STATUS_CODE with a missing key. -/
  | keyError (k : StatusKey)
  /-- TypeError, e.g. comparing None with an int under Python 3. -/
  | typeError (msg : String)
  /-- ActionError (line 129). -/
  | actionError (msg : String)
  /-- DependencyError raised by resolve_action_order. -/
  | dependencyError (e : DependencyError)
  /-- Any other exception raised by an action's entry point. -/
  | exc (msg : String)
deriving DecidableEq

deriving instance DecidableEq for Except

/-- The text produced by rendering an exception with "%s". -/
def excText : PyError → String
  | .keyError (.str s) => s
  | .keyError (.int n) => toString n
  | .typeError m => m
  | .actionError m => m
  | .dependencyError e => e.message
  | .exc m => m

/-- Action.set_result (lines 219-237) at the call sites of this code base,
which pass all three parameters: `self.status = STATUS_CODE[status]` raises
KeyError when the status key is not in the dict (in particular whenever the
caller passed an integer instead of a status name); only on success are the
status, error_id and message attributes updated. -/
def set_result (a : ActionState) (status : StatusKey) (error_id : String)
    (message : String) : Except PyError ActionState :=
  match statusCodeLookup status with
  | some v => .ok { a with status := some v, error_id := some error_id,
                           message := some message }
  | none => .error (.keyError status)

/-- The undecorated body of the base `Action.run` (lines 203-217): fail
loudly on double execution, otherwise mark the instance as having run. It
sets no outcome field. -/
def baseRun (a : ActionState) : Except PyError ActionState :=
  if a.has_run then .error (.actionError ("Action " ++ a.id ++ " has already run"))
  else .ok { a with has_run := true }

/-- The `_action_defaults_to_success` decorator (lines 102-122): run the
wrapped function; if it returns normally and `self.status` is still the
unset sentinel, set it to SUCCESS. An exception propagates unchanged. -/
def _action_defaults_to_success (f : ActionState → Except PyError ActionState)
    (a : ActionState) : Except PyError ActionState :=
  match f a with
  | .ok a1 => .ok (if a1.status.isNone
                   then { a1 with status := some (statusValue "SUCCESS") }
                   else a1)
  | .error e => .error e

/-- Invoking `action.run()` on an instance: Python dispatches to the
subclass's override.  A subclass that delegates reaches the decorated base
`Action.run` (the wrapper is applied where `super().run()` is called);
an override that never calls the base, like `Convert2rhelLatest.run`, is
not wrapped at all, so nothing fills in the default SUCCESS status. -/
def actionRun : Behavior → ActionState → Except PyError ActionState
  | .succeed, a => _action_defaults_to_success baseRun a
  | .setResult st eid msg, a =>
      match _action_defaults_to_success baseRun a with
      | .ok a1 => set_result a1 (.str st) eid msg
      | .error e => .error e
  | .raiseExc m, _ => .error (.exc m)
  | .plainReturn, a => .ok a

/-- The ids of a list of action classes, in order. -/
def actionIds (l : List ActionCls) : List String := l.map ActionCls.id

/-- Lexicographic comparison of character lists by code point, which is how
Python compares strings. -/
def charListLe : List Char → List Char → Bool
  | [], _ => true
  | _ :: _, [] => false
  | a :: as, b :: bs =>
      if a.toNat < b.toNat then true
      else if b.toNat < a.toNat then false
      else charListLe as bs

/-- Python string comparison `a <= b`: lexicographic by code point. -/
def pyStrLe (a b : String) : Bool := charListLe a.data b.data

/-- `sorted(potential_actions, key=lambda action: action.id)` (line 418):
stable ascending sort by id.  (A stable ascending sort has a unique output,
so structurally recursive insertion sort computes exactly what Python's
stable `sorted` computes.) -/
def sortById (l : List ActionCls) : List ActionCls :=
  List.insertionSort (fun a b => pyStrLe a.id b.id = true) l

/-- One pass of the while-loop body of resolve_action_order (lines 434-439):
iterate over a copy of unresolved_actions in order; an action whose every
dependency is in resolved_action_ids is removed from the pending list, its
id is added to the resolved-id set (visible to later actions of the same
pass), and it is yielded.  Returns (new pending list, new resolved-id set,
actions yielded by this pass in order). -/
def onePass : List ActionCls → List String → List ActionCls × List String × List ActionCls
  | [], ids => ([], ids, [])
  | a :: rest, ids =>
      if a.dependencies.all (fun d => ids.contains d) then
        let r := onePass rest (ids ++ [a.id])
        (r.1, r.2.1, a :: r.2.2)
      else
        let r := onePass rest ids
        (a :: r.1, r.2.1, r.2.2)

/-- The state of the while loop of resolve_action_order after it finishes. -/
structure LoopResult where
  pending : List ActionCls
  ids : List String
  prevNum : Nat
  yielded : List ActionCls
deriving DecidableEq

/-- The while loop of resolve_action_order (lines 432-439):
`while previous_number_of_unresolved_actions != len(unresolved_actions)`,
each iteration recording the current pending length and performing one
linear pass over the pending list. -/
def resolveLoop (prevNum : Nat) (ids : List String) (pending : List ActionCls) :
    LoopResult :=
  if prevNum = pending.length then
    ⟨pending, ids, prevNum, []⟩
  else
    let r := onePass pending ids
    let res := resolveLoop pending.length r.2.1 r.1
    ⟨res.pending, res.ids, res.prevNum, r.2.2 ++ res.yielded⟩
termination_by pending.length + (if prevNum = pending.length then 0 else 1)
decreasing_by
  have hle : ∀ (l : List ActionCls) (ids2 : List String),
      ((onePass l ids2).1).length ≤ l.length := by
    intro l
    induction l with
    | nil => intro _; simp [onePass]
    | cons a rest ih =>
        intro ids2
        simp only [onePass]
        split
        · exact Nat.le_succ_of_le (ih (ids2 ++ [a.id]))
        · simpa using ih ids2
  simp only [if_neg (by assumption)]
  have h1 := hle pending ids
  split
  · omega
  · omega

/-- Fuel-indexed twin of `resolveLoop`, structurally recursive so that the
kernel can evaluate it on concrete inputs; `resolveLoop_eq_fuel` proves it
agrees with `resolveLoop` whenever the fuel is at least `pending.length + 1`. -/
def resolveLoopFuel : Nat → Nat → List String → List ActionCls → LoopResult
  | 0, prevNum, ids, pending => ⟨pending, ids, prevNum, []⟩
  | f + 1, prevNum, ids, pending =>
      if prevNum = pending.length then ⟨pending, ids, prevNum, []⟩
      else
        let r := onePass pending ids
        let res := resolveLoopFuel f pending.length r.2.1 r.1
        ⟨res.pending, res.ids, res.prevNum, r.2.2 ++ res.yielded⟩

/-- resolve_action_order (lines 394-444) as a generator: returns the yielded
sequence together with the DependencyError raised after the last yield, if
any.  Note the raise site (lines 441-444) passes only a message — the
`unresolved_actions`/`resolved_actions` attributes keep their empty-list
defaults. -/
def resolve_action_order (potential_actions : List ActionCls)
    (previously_resolved_actions : List ActionCls) :
    List ActionCls × Option DependencyError :=
  let pot := sortById potential_actions
  let prevNum0 := pot.length + previously_resolved_actions.length
  let unresolved0 := pot.filter (fun a => !a.dependencies.isEmpty)
  let resolved0 := previously_resolved_actions ++
                   pot.filter (fun a => a.dependencies.isEmpty)
  let r := resolveLoop prevNum0 (actionIds resolved0) unresolved0
  if r.prevNum ≠ 0 then
    (resolved0 ++ r.yielded,
     some { message := "Unresolvable Dependencies in these actions: " ++
                       String.intercalate ", " (actionIds r.pending),
            unresolved_actions := [], resolved_actions := [] })
  else
    (resolved0 ++ r.yielded, none)

/-- Python equality between a dependency id (a str) and an Action instance,
as evaluated element-wise by `d not in successes` (Stage.run line 353):
`Action` defines no `__eq__`, so a string never compares equal to an Action
instance and the membership test is False for every element of successes. -/
def pyStrEqActionInstance (_d : String) (_a : ActionState) : Bool := false

/-- `failed_deps = [d for d in action_class.dependencies if d not in successes]`
(line 353).  `successes` holds Action *instances* while `d` is an id string,
so the membership test compares a str against instances. -/
def failed_deps_of (c : ActionCls) (successes : List ActionState) : List String :=
  c.dependencies.filter (fun d => !(successes.any (fun a => pyStrEqActionInstance d a)))

/-- Modelled from the spec: `convert2rhel.utils.format_sequence_as_message` is
not among the sources given here; the spec only requires "a message naming
the unresolved dependency/dependencies (pluralized appropriately)".  We join
the names with commas and "and". -/
def format_sequence_as_message : List String → String
  | [] => ""
  | [x] => x
  | [x, y] => x ++ " and " ++ y
  | x :: rest => x ++ ", " ++ format_sequence_as_message rest

/-- The skip message of Stage.run lines 358-361. -/
def skipMessage (fdeps : List String) : String :=
  "Skipped because " ++ format_sequence_as_message fdeps ++
  (if 1 < fdeps.length then " were" else " was") ++ " not successful"

/-- Modelled from the spec: `traceback.format_exc()` renders the interpreter's
current exception trace, whose exact text is environment dependent and which
no claim depends on; we model it as the fault text itself. -/
def traceback_format_exc (e : String) : String := e

/-- The generic failure message built in Stage.run lines 373-378. -/
def unhandledMessage (e : String) : String :=
  "Unhandled exception was caught: " ++ e ++
  "\nPlease file a bug at https://issues.redhat.com/ to have this" ++
  " fixed or a specific error message added." ++
  "\nTraceback: " ++ traceback_format_exc e

/-- A store of Python list objects: a list identity (its position in the
store) maps to the current contents of that list. -/
abbrev PyStore := List (List ActionState)

/-- Reading the contents of a list object. -/
def hread (s : PyStore) (r : Nat) : List ActionState := s.getD r []

/-- In-place replacement of the contents of a list object. -/
def hwrite (s : PyStore) (r : Nat) (v : List ActionState) : PyStore := s.set r v

/-- Allocating a fresh list object with the given contents. -/
def halloc (s : PyStore) (v : List ActionState) : PyStore × Nat :=
  (s ++ [v], s.length)

/-- `lst.append(a)` on the list object `r`. -/
def happend (s : PyStore) (r : Nat) (a : ActionState) : PyStore :=
  hwrite s r (hread s r ++ [a])

/-- Python 3 semantics of comparing an action's status (possibly None) with
an int, as at line 382: comparing None with an int raises TypeError.  (Under
Python 2 the comparison would succeed with None ordered below every int; no
claim exercises the None branch.) -/
def pyLeInt (x : Option Nat) (w : Nat) : Except PyError Bool :=
  match x with
  | some v => .ok (decide (v ≤ w))
  | none => .error (.typeError "unorderable types: NoneType and int")

/-- Python 3 semantics of `action.status > STATUS_CODE[WARNING]` (line 385). -/
def pyGtInt (x : Option Nat) (w : Nat) : Except PyError Bool :=
  match x with
  | some v => .ok (decide (w < v))
  | none => .error (.typeError "unorderable types: NoneType and int")

/-- Categorizing a finished action (Stage.run lines 381-386): append to the
successes list when status <= WARNING, to the failures list when
status > WARNING. -/
def categorize (s : PyStore) (sRef fRef : Nat) (a : ActionState) :
    Except PyError PyStore :=
  match pyLeInt a.status (statusValue "WARNING") with
  | .error e => .error e
  | .ok le =>
      let s1 := if le then happend s sRef a else s
      match pyGtInt a.status (statusValue "WARNING") with
      | .error e => .error e
      | .ok gt => .ok (if gt then happend s1 fRef a else s1)

/-- The body of the per-action loop of Stage.run (lines 351-386), iterating
over the actions yielded by resolve_action_order: compute failed_deps from
the current contents of the successes list; skip (appending to skips) when
it is non-empty; otherwise construct the instance and run it inside the
try/except boundary, converting any fault through
`set_result(status=STATUS_CODE["ERROR"], ...)`, then categorize. -/
def stageLoop : List ActionCls → PyStore → Nat → Nat → Nat → Except PyError PyStore
  | [], s, _, _, _ => .ok s
  | c :: rest, s, sRef, fRef, kRef =>
      let fdeps := failed_deps_of c (hread s sRef)
      if fdeps.isEmpty then
        let afterRun : Except PyError ActionState :=
          match actionRun c.behavior (mkInstance c) with
          | .ok a1 => .ok a1
          | .error e =>
              set_result (mkInstance c) (.int (statusValue "ERROR"))
                "UNEXPECTED_ERROR" (unhandledMessage (excText e))
        match afterRun with
        | .error e => .error e
        | .ok a1 =>
            match categorize s sRef fRef a1 with
            | .error e => .error e
            | .ok s1 => stageLoop rest s1 sRef fRef kRef
      else
        match set_result (mkInstance c) (.str "SKIP") "SKIP" (skipMessage fdeps) with
        | .error e => .error e
        | .ok a1 => stageLoop rest (happend s kRef a1) sRef fRef kRef

/-- A Stage (lines 288-296): its name, the actions discovered for it, the
optional chained next stage, and the `_has_run` flag, which `__init__` sets
to False.  (Discovery itself — `get_actions` — is an external collaborator;
a Stage here simply carries the list of action classes it owns.) -/
inductive Stage where
  | mk (stage_name : String) (actions : List ActionCls)
       (next_stage : Option Stage) (has_run : Bool)

/-- Decidable equality of Stages (spelled out because the nested
`Option Stage` field prevents automatic derivation). -/
def Stage.decEq : (a b : Stage) → Decidable (a = b)
  | .mk n1 a1 next1 h1, .mk n2 a2 next2 h2 =>
    if hn : n1 = n2 then
      if ha : a1 = a2 then
        if hh : h1 = h2 then
          match next1, next2 with
          | none, none => isTrue (by rw [hn, ha, hh])
          | none, some _ => isFalse (fun hc => by
              injection hc with e1 e2 e3 e4
              exact Option.noConfusion e3)
          | some _, none => isFalse (fun hc => by
              injection hc with e1 e2 e3 e4
              exact Option.noConfusion e3)
          | some s1, some s2 =>
            match Stage.decEq s1 s2 with
            | isTrue hs => isTrue (by rw [hn, ha, hh, hs])
            | isFalse hs => isFalse (fun hc => by
                injection hc with e1 e2 e3 e4
                injection e3 with e5
                exact hs e5)
        else isFalse (fun hc => by injection hc with e1 e2 e3 e4; exact hh e4)
      else isFalse (fun hc => by injection hc with e1 e2 e3 e4; exact ha e2)
    else isFalse (fun hc => by injection hc with e1 e2 e3 e4; exact hn e1)

instance : DecidableEq Stage := Stage.decEq

def Stage.stage_name : Stage → String
  | .mk n _ _ _ => n

def Stage.actions : Stage → List ActionCls
  | .mk _ a _ _ => a

def Stage.next_stage : Stage → Option Stage
  | .mk _ _ n _ => n

def Stage.has_run : Stage → Bool
  | .mk _ _ _ h => h

/-- Stage.run (lines 312-391).  Takes the store and the callers' list
objects (None or a list identity) for successes/failures/skips; returns the
updated store, the three list identities packed into the returned
FinishedActions, and the post-call state of the Stage object.  Faithful
details: the guard raises ActionError when `_has_run` is already True, but
no assignment ever sets `_has_run` (so the returned Stage carries the flag
unchanged); the caller's lists are copied into fresh list objects
(lines 335-349); the per-action loop consumes resolve_action_order, whose
terminal DependencyError surfaces after the last yielded action was
processed; a chained next stage is run on this stage's local lists and its
returned lists are the ones returned (lines 388-391). -/
def Stage.run : Stage → PyStore → Option Nat → Option Nat → Option Nat →
    Except PyError (PyStore × Nat × Nat × Nat × Stage)
  | .mk name acts next hr, s0, osucc, ofail, oskip =>
    if hr then .error (.actionError ("Stage " ++ name ++ " has already run."))
    else
      let p1 := match osucc with
                | none => halloc s0 []
                | some r => halloc s0 (hread s0 r)
      let p2 := match ofail with
                | none => halloc p1.1 []
                | some r => halloc p1.1 (hread p1.1 r)
      let p3 := match oskip with
                | none => halloc p2.1 []
                | some r => halloc p2.1 (hread p2.1 r)
      let ro := resolve_action_order acts []
      match stageLoop ro.1 p3.1 p1.2 p2.2 p3.2 with
      | .error e => .error e
      | .ok s4 =>
          match ro.2 with
          | some de => .error (.dependencyError de)
          | none =>
              match next with
              | none => .ok (s4, p1.2, p2.2, p3.2, .mk name acts none hr)
              | some ns =>
                  match ns.run s4 (some p1.2) (some p2.2) (some p3.2) with
                  | .error e => .error e
                  | .ok (s5, sR, fR, kR, ns2) =>
                      .ok (s5, sR, fR, kR, .mk name acts (some ns2) hr)

/-- Stage.check_dependencies (lines 298-310): materialize
`list(resolve_action_order(self.actions))`, which raises the terminal
DependencyError if there is one, then recurse into the next stage passing
the materialized list.  Faithful detail: the `previous_stage_actions`
parameter is accepted but never used — resolve_action_order is called on
this stage's actions alone. -/
def Stage.check_dependencies : Stage → Option (List ActionCls) → Except PyError Unit
  | .mk _ acts next _, _previous_stage_actions =>
      let ro := resolve_action_order acts []
      match ro.2 with
      | some de => .error (.dependencyError de)
      | none =>
          match next with
          | some ns => ns.check_dependencies (some ro.1)
          | none => .ok ()

/-- One record of the formatted results mapping built by run_actions
(lines 460-468). -/
structure ActionResult where
  status : Nat
  error_id : Option String
  message : Option String
deriving DecidableEq

/-- find_failed_actions (lines 471-483): the ids in the results mapping
whose status is strictly greater than WARNING, in mapping order. -/
def find_failed_actions (results : List (String × ActionResult)) : List String :=
  (results.filter (fun p => decide (statusValue "WARNING" < p.2.status))).map Prod.fst

/-- Model of `Convert2rhelLatest` (convert2rhel_latest.py lines 54-63) on the
no-internet-access path: its id, empty dependencies, and a run() method that
overrides the base without the decorator and without calling super(),
logging a warning and returning without setting any outcome field. -/
def convert2rhelLatestNoInternet : ActionCls :=
  { id := "CONVERT2RHEL_LATEST_VERSION", dependencies := [],
    behavior := .plainReturn }

/-- Modelled from the spec (section 4.1, step 3): one linear scan over the
current pending list in its existing order, emitting any unit whose every
dependency id is already in the resolved-id set, appending newly resolved
units to the output, removing them from pending, and accumulating their ids
into the resolved set as the scan proceeds.  `scan` is what remains to be
scanned; `pendAcc`/`outAcc` accumulate the surviving pending list and the
emitted units. -/
def referencePassAux : List ActionCls → List String → List ActionCls →
    List ActionCls → List ActionCls × List String × List ActionCls
  | [], ids, pendAcc, outAcc => (pendAcc, ids, outAcc)
  | a :: scan, ids, pendAcc, outAcc =>
      if a.dependencies.all (fun d => ids.contains d) then
        referencePassAux scan (ids ++ [a.id]) pendAcc (outAcc ++ [a])
      else
        referencePassAux scan ids (pendAcc ++ [a]) outAcc

/-- Modelled from the spec: a full pass starts from empty accumulators. -/
def referencePass (pending : List ActionCls) (ids : List String) :
    List ActionCls × List String × List ActionCls :=
  referencePassAux pending ids [] []

/-- Modelled from the spec (section 4.1, steps 3-4): repeat passes over the
pending list, stopping when a full pass resolves nothing new.  Returns
(final pending, final resolved-id set, emitted units in order). -/
def referenceRounds (pending : List ActionCls) (ids : List String) :
    List ActionCls × List String × List ActionCls :=
  let r := referencePass pending ids
  if _hne : r.2.2.isEmpty then (pending, ids, [])
  else
    let r2 := referenceRounds r.1 r.2.1
    (r2.1, r2.2.1, r.2.2 ++ r2.2.2)
termination_by pending.length
decreasing_by
  have key : ∀ (scan : List ActionCls) (ids2 : List String)
      (p o : List ActionCls),
      ((referencePassAux scan ids2 p o).1).length +
        ((referencePassAux scan ids2 p o).2.2).length =
        scan.length + p.length + o.length := by
    intro scan
    induction scan with
    | nil => intro _ p o; simp [referencePassAux]
    | cons a rest ih =>
        intro ids2 p o
        simp only [referencePassAux]
        split
        · rw [ih]; simp; omega
        · rw [ih]; simp; omega
  simp only [referencePass] at _hne ⊢
  have h2 := key pending ids [] []
  simp only [List.length_nil, Nat.add_zero] at h2
  have h5 : ((referencePassAux pending ids [] []).2.2) ≠ [] := by
    intro hc
    apply _hne
    show (referencePassAux pending ids [] []).2.2.isEmpty = true
    rw [hc]
    rfl
  have h6 := List.length_pos.mpr h5
  omega

/-- Modelled from the spec (section 4.1): the reference resolution
algorithm — sort candidates by id ascending; emit previously_resolved
followed by the no-dependency candidates in id order; repeat linear passes
over the pending list in its existing order until a pass resolves nothing
new; fail with a dependency error listing the remaining ids if pending is
then non-empty. -/
def reference_resolve_order (candidates previously_resolved : List ActionCls) :
    List ActionCls × Option DependencyError :=
  let sortedC := sortById candidates
  let immediate := sortedC.filter (fun a => a.dependencies.isEmpty)
  let pending := sortedC.filter (fun a => !a.dependencies.isEmpty)
  let emitted0 := previously_resolved ++ immediate
  let r := referenceRounds pending (actionIds emitted0)
  if r.1.isEmpty then (emitted0 ++ r.2.2, none)
  else
    (emitted0 ++ r.2.2,
     some { message := "Unresolvable Dependencies in these actions: " ++
                       String.intercalate ", " (actionIds r.1),
            unresolved_actions := [], resolved_actions := [] })

/-- A rank assignment witnessing that the candidates' dependencies are
acyclic and defined: every dependency id of a candidate either belongs to a
previously resolved unit, or belongs to a candidate of strictly smaller
rank. -/
def DepsSatisfiable (candidates prev : List ActionCls) : Prop :=
  ∃ rank : String → Nat, ∀ a ∈ candidates, ∀ d ∈ a.dependencies,
    d ∈ actionIds prev ∨ (d ∈ actionIds candidates ∧ rank d < rank a.id)

/-- Invariant of the resolution loop: every pending action's dependencies
are either already resolved (their id is in `ids`) or supplied by a pending
action of strictly smaller rank. -/
def InvP (rank : String → Nat) (ids : List String) (pending : List ActionCls) : Prop :=
  ∀ a ∈ pending, ∀ d ∈ a.dependencies,
    d ∈ ids ∨ ∃ b ∈ pending, b.id = d ∧ rank d < rank a.id

/-- Every unit of `out` has all its dependency ids among `base` and the ids
of the units strictly before it in `out`. -/
def SortedDeps (base : List String) (out : List ActionCls) : Prop :=
  ∀ i, (hi : i < out.length) → ∀ d ∈ (out.get ⟨i, hi⟩).dependencies,
    d ∈ base ++ actionIds (out.take i)

/-- Each yielded unit's dependency ids appear among the previously resolved
ids or belong to a unit yielded strictly earlier. -/
def DepOrderOK (prev out : List ActionCls) : Prop :=
  ∀ i, (hi : i < out.length) → ∀ d ∈ (out.get ⟨i, hi⟩).dependencies,
    d ∈ actionIds prev ∨ ∃ j, ∃ hj : j < out.length, j < i ∧ (out.get ⟨j, hj⟩).id = d

/-- Fixture: an action "A" with no dependencies whose run() delegates to the
base and succeeds. -/
def aCls : ActionCls := { id := "A", dependencies := [], behavior := .succeed }

/-- Fixture: an action "B" declaring a dependency on "A", otherwise like A. -/
def bCls : ActionCls := { id := "B", dependencies := ["A"], behavior := .succeed }

/-- Fixture: the state of an instance of A after a successful run. -/
def stA : ActionState :=
  { id := "A", dependencies := [], status := some 0, message := none,
    error_id := none, has_run := true }

/-- Fixture: the state of an instance of B after Stage.run marked it
skipped: status SKIP (450), the skip message, and an entry point that was
never invoked (has_run still false). -/
def stBSkip : ActionState :=
  { id := "B", dependencies := ["A"], status := some 450,
    message := some "Skipped because A was not successful",
    error_id := some "SKIP", has_run := false }

/-- Fixture: a stage owning A and B only. -/
def stageAB : Stage := .mk "test" [aCls, bCls] none false

/-- Fixture: an action whose entry point raises an exception "boom". -/
def boomCls : ActionCls :=
  { id := "BOOM", dependencies := [], behavior := .raiseExc "boom" }

/-- Fixture: a stage owning only the raising action. -/
def boomStage : Stage := .mk "checks" [boomCls] none false

/-- Fixture: a stage owning only A. -/
def demoStage : Stage := .mk "demo" [aCls] none false

/-- Fixture: a second stage owning B, which depends on A from the first. -/
def chainTwo : Stage := .mk "two" [bCls] none false

/-- Fixture: a first stage owning A, chained to `chainTwo`. -/
def chainOne : Stage := .mk "one" [aCls] (some chainTwo) false

/-- Fixture: an action whose declared dependency id "Unknown" is defined
nowhere. -/
def oneUnknownCls : ActionCls :=
  { id := "One", dependencies := ["Unknown"], behavior := .succeed }

/-- Fixture: an action "Zero" with no dependencies. -/
def zeroCls : ActionCls :=
  { id := "Zero", dependencies := [], behavior := .succeed }

/-- Fixture: the formatted-results mapping of the C9 example. -/
def exResults : List (String × ActionResult) :=
  [("X", { status := 900, error_id := none, message := none }),
   ("Y", { status := 0, error_id := none, message := none })]

/-- The sorted candidate list of a resolve_action_order call (line 418). -/
def rao_pot (cands : List ActionCls) : List ActionCls := sortById cands

/-- The candidates without dependencies, resolved immediately (line 423). -/
def rao_immediate (cands : List ActionCls) : List ActionCls :=
  (sortById cands).filter (fun a => a.dependencies.isEmpty)

/-- The candidates with dependencies, initially unresolved (line 422). -/
def rao_pending0 (cands : List ActionCls) : List ActionCls :=
  (sortById cands).filter (fun a => !a.dependencies.isEmpty)

/-- The initially resolved units: previously resolved plus the
no-dependency candidates (line 423). -/
def rao_resolved0 (cands prev : List ActionCls) : List ActionCls :=
  prev ++ rao_immediate cands

/-- The state of resolve_action_order's while loop after it finishes. -/
def rao_loop (cands prev : List ActionCls) : LoopResult :=
  resolveLoop ((sortById cands).length + prev.length)
    (actionIds (rao_resolved0 cands prev)) (rao_pending0 cands)

/-- Fuel-evaluated twin of `rao_loop`, used to evaluate concrete instances
(the fuel `pending.length + 1` is proven sufficient by
`resolveLoop_eq_fuel`). -/
def rao_loopF (cands prev : List ActionCls) : LoopResult :=
  resolveLoopFuel ((rao_pending0 cands).length + 1)
    ((sortById cands).length + prev.length)
    (actionIds (rao_resolved0 cands prev)) (rao_pending0 cands)

theorem onePass_length_le (p : List ActionCls) :
    ∀ ids : List String, ((onePass p ids).1).length ≤ p.length := by
  induction p with
  | nil => intro ids; simp [onePass]
  | cons a rest ih =>
      intro ids
      simp only [onePass]
      split
      · exact Nat.le_succ_of_le (ih (ids ++ [a.id]))
      · simpa using ih ids

theorem onePass_sum (p : List ActionCls) :
    ∀ ids : List String,
      ((onePass p ids).1).length + ((onePass p ids).2.2).length = p.length := by
  induction p with
  | nil => intro ids; simp [onePass]
  | cons a rest ih =>
      intro ids
      simp only [onePass]
      split
      · have := ih (ids ++ [a.id]); simp; omega
      · have := ih ids; simp; omega

theorem onePass_perm (p : List ActionCls) :
    ∀ ids : List String, p.Perm ((onePass p ids).2.2 ++ (onePass p ids).1) := by
  induction p with
  | nil => intro ids; simp [onePass]
  | cons a rest ih =>
      intro ids
      simp only [onePass]
      split
      · exact (ih (ids ++ [a.id])).cons a
      · exact ((ih ids).cons a).trans List.perm_middle.symm

theorem onePass_ids (p : List ActionCls) :
    ∀ ids : List String,
      (onePass p ids).2.1 = ids ++ actionIds ((onePass p ids).2.2) := by
  induction p with
  | nil => intro ids; simp [onePass, actionIds]
  | cons a rest ih =>
      intro ids
      simp only [onePass]
      split
      · rw [ih (ids ++ [a.id])]
        simp [actionIds]
      · rw [ih ids]

theorem onePass_noprogress (p : List ActionCls) :
    ∀ ids : List String, (onePass p ids).2.2 = [] → onePass p ids = (p, ids, []) := by
  induction p with
  | nil => intro ids _; simp [onePass]
  | cons a rest ih =>
      intro ids h
      simp only [onePass] at h ⊢
      by_cases hc : (a.dependencies.all fun d => ids.contains d) = true
      · rw [if_pos hc] at h
        simp at h
      · rw [if_neg hc] at h ⊢
        rw [ih ids h]

theorem resolveLoop_eq_fuel (f : Nat) :
    ∀ (prevNum : Nat) (ids : List String) (pending : List ActionCls),
      pending.length + 1 ≤ f →
      resolveLoopFuel f prevNum ids pending = resolveLoop prevNum ids pending := by
  induction f with
  | zero => intro pn ids p h; omega
  | succ f ih =>
      intro pn ids p h
      by_cases hg : pn = p.length
      · have e1 : resolveLoopFuel (f + 1) pn ids p = ⟨p, ids, pn, []⟩ := by
          simp only [resolveLoopFuel]
          rw [if_pos hg]
        have e2 : resolveLoop pn ids p = ⟨p, ids, pn, []⟩ := by
          conv_lhs => rw [resolveLoop.eq_def]
          rw [if_pos hg]
        rw [e1, e2]
      · have e1 : resolveLoopFuel (f + 1) pn ids p =
            ⟨(resolveLoopFuel f p.length (onePass p ids).2.1 (onePass p ids).1).pending,
             (resolveLoopFuel f p.length (onePass p ids).2.1 (onePass p ids).1).ids,
             (resolveLoopFuel f p.length (onePass p ids).2.1 (onePass p ids).1).prevNum,
             (onePass p ids).2.2 ++
               (resolveLoopFuel f p.length (onePass p ids).2.1 (onePass p ids).1).yielded⟩ := by
          simp only [resolveLoopFuel]
          rw [if_neg hg]
        have e2 : resolveLoop pn ids p =
            ⟨(resolveLoop p.length (onePass p ids).2.1 (onePass p ids).1).pending,
             (resolveLoop p.length (onePass p ids).2.1 (onePass p ids).1).ids,
             (resolveLoop p.length (onePass p ids).2.1 (onePass p ids).1).prevNum,
             (onePass p ids).2.2 ++
               (resolveLoop p.length (onePass p ids).2.1 (onePass p ids).1).yielded⟩ := by
          conv_lhs => rw [resolveLoop.eq_def]
          rw [if_neg hg]
        rw [e1, e2]
        by_cases hpr : ((onePass p ids).1).length = p.length
        · have g1 : resolveLoopFuel f p.length (onePass p ids).2.1 (onePass p ids).1 =
              ⟨(onePass p ids).1, (onePass p ids).2.1, p.length, []⟩ := by
            cases f with
            | zero => rfl
            | succ f2 =>
                simp only [resolveLoopFuel]
                rw [if_pos hpr.symm]
          have g2 : resolveLoop p.length (onePass p ids).2.1 (onePass p ids).1 =
              ⟨(onePass p ids).1, (onePass p ids).2.1, p.length, []⟩ := by
            conv_lhs => rw [resolveLoop.eq_def]
            rw [if_pos hpr.symm]
          rw [g1, g2]
        · have hlt : ((onePass p ids).1).length < p.length :=
            Nat.lt_of_le_of_ne (onePass_length_le p ids) hpr
          rw [ih p.length (onePass p ids).2.1 (onePass p ids).1 (by omega)]

theorem resolveLoop_exit (pn : Nat) (ids : List String) (p : List ActionCls)
    (hg : pn = p.length) : resolveLoop pn ids p = ⟨p, ids, pn, []⟩ := by
  conv_lhs => rw [resolveLoop.eq_def]
  rw [if_pos hg]

theorem resolveLoop_step (pn : Nat) (ids : List String) (p : List ActionCls)
    (hg : ¬pn = p.length) :
    resolveLoop pn ids p =
      ⟨(resolveLoop p.length (onePass p ids).2.1 (onePass p ids).1).pending,
       (resolveLoop p.length (onePass p ids).2.1 (onePass p ids).1).ids,
       (resolveLoop p.length (onePass p ids).2.1 (onePass p ids).1).prevNum,
       (onePass p ids).2.2 ++
         (resolveLoop p.length (onePass p ids).2.1 (onePass p ids).1).yielded⟩ := by
  conv_lhs => rw [resolveLoop.eq_def]
  rw [if_neg hg]

theorem resolveLoop_induction (motive : Nat → List String → List ActionCls → Prop)
    (exitc : ∀ pn ids p, pn = p.length → motive pn ids p)
    (stepc : ∀ pn ids p, ¬pn = p.length →
        motive p.length (onePass p ids).2.1 (onePass p ids).1 →
        motive pn ids p) :
    ∀ pn ids p, motive pn ids p := by
  have main : ∀ n pn ids p, p.length ≤ n → motive pn ids p := by
    intro n
    induction n with
    | zero =>
        intro pn ids p hp
        by_cases hg : pn = p.length
        · exact exitc pn ids p hg
        · apply stepc pn ids p hg
          apply exitc
          have := onePass_length_le p ids
          omega
    | succ n ih =>
        intro pn ids p hp
        by_cases hg : pn = p.length
        · exact exitc pn ids p hg
        · apply stepc pn ids p hg
          by_cases hpr : ((onePass p ids).1).length = p.length
          · exact exitc _ _ _ hpr.symm
          · have hlt := Nat.lt_of_le_of_ne (onePass_length_le p ids) hpr
            exact ih p.length _ _ (by omega)
  intro pn ids p
  exact main p.length pn ids p (le_refl _)

theorem resolveLoop_prevNum (pn : Nat) (ids : List String) (p : List ActionCls) :
    (resolveLoop pn ids p).prevNum = ((resolveLoop pn ids p).pending).length := by
  induction pn, ids, p using resolveLoop_induction with
  | exitc pn ids p hg => rw [resolveLoop_exit pn ids p hg]; exact hg
  | stepc pn ids p hg ih => rw [resolveLoop_step pn ids p hg]; exact ih

theorem resolveLoop_perm (pn : Nat) (ids : List String) (p : List ActionCls) :
    p.Perm ((resolveLoop pn ids p).yielded ++ (resolveLoop pn ids p).pending) := by
  induction pn, ids, p using resolveLoop_induction with
  | exitc pn ids p hg => rw [resolveLoop_exit pn ids p hg]; simp
  | stepc pn ids p hg ih =>
      rw [resolveLoop_step pn ids p hg]
      refine (onePass_perm p ids).trans ?_
      rw [List.append_assoc]
      exact ih.append_left (onePass p ids).2.2

theorem resolveLoop_ids (pn : Nat) (ids : List String) (p : List ActionCls) :
    (resolveLoop pn ids p).ids = ids ++ actionIds ((resolveLoop pn ids p).yielded) := by
  induction pn, ids, p using resolveLoop_induction with
  | exitc pn ids p hg => rw [resolveLoop_exit pn ids p hg]; simp [actionIds]
  | stepc pn ids p hg ih =>
      rw [resolveLoop_step pn ids p hg]
      simp only []
      rw [ih, onePass_ids p ids]
      simp [actionIds]

theorem resolve_action_order_eq (cands prev : List ActionCls) :
    resolve_action_order cands prev =
      (rao_resolved0 cands prev ++ (rao_loop cands prev).yielded,
       if (rao_loop cands prev).prevNum ≠ 0
       then some { message := "Unresolvable Dependencies in these actions: " ++
                     String.intercalate ", " (actionIds (rao_loop cands prev).pending),
                   unresolved_actions := [], resolved_actions := [] }
       else none) := by
  simp only [resolve_action_order, rao_resolved0, rao_immediate, rao_pending0, rao_loop]
  split
  · rfl
  · rfl

theorem contains_true_iff (ids : List String) (d : String) :
    ids.contains d = true ↔ d ∈ ids := List.elem_iff

theorem all_deps_mem (deps ids : List String) :
    (deps.all fun d => ids.contains d) = true ↔ ∀ d ∈ deps, d ∈ ids := by
  rw [List.all_eq_true]
  constructor
  · intro h d hd
    exact (contains_true_iff ids d).mp (h d hd)
  · intro h d hd
    exact (contains_true_iff ids d).mpr (h d hd)

theorem onePass_mem_pending (p : List ActionCls) (ids : List String) (x : ActionCls)
    (hx : x ∈ (onePass p ids).1) : x ∈ p :=
  (onePass_perm p ids).mem_iff.mpr (List.mem_append_right _ hx)

theorem onePass_mem_split (p : List ActionCls) (ids : List String) (x : ActionCls)
    (hx : x ∈ p) : x ∈ (onePass p ids).2.2 ∨ x ∈ (onePass p ids).1 :=
  List.mem_append.mp ((onePass_perm p ids).mem_iff.mp hx)

theorem invP_preserved (rank : String → Nat) (ids : List String) (p : List ActionCls)
    (h : InvP rank ids p) :
    InvP rank ((onePass p ids).2.1) ((onePass p ids).1) := by
  intro a ha d hd
  have ha2 : a ∈ p := onePass_mem_pending p ids a ha
  rcases h a ha2 d hd with hid | ⟨b, hb, hbid, hrank⟩
  · left
    rw [onePass_ids]
    exact List.mem_append_left _ hid
  · rcases onePass_mem_split p ids b hb with hout | hpend
    · left
      rw [onePass_ids]
      apply List.mem_append_right
      rw [← hbid]
      exact List.mem_map_of_mem ActionCls.id hout
    · right
      exact ⟨b, hpend, hbid, hrank⟩

theorem exists_rank_min (rank : String → Nat) (p : List ActionCls) (hne : p ≠ []) :
    ∃ a ∈ p, ∀ b ∈ p, rank a.id ≤ rank b.id := by
  induction p with
  | nil => exact absurd rfl hne
  | cons x rest ih =>
      by_cases hr : rest = []
      · subst hr
        refine ⟨x, List.mem_singleton_self x, ?_⟩
        intro b hb
        rw [List.mem_singleton.mp hb]
      · obtain ⟨m, hm, hmin⟩ := ih hr
        by_cases hc : rank x.id ≤ rank m.id
        · refine ⟨x, List.mem_cons_self x rest, ?_⟩
          intro b hb
          rcases List.mem_cons.mp hb with he | hb2
          · rw [he]
          · exact le_trans hc (hmin b hb2)
        · refine ⟨m, List.mem_cons_of_mem x hm, ?_⟩
          intro b hb
          rcases List.mem_cons.mp hb with he | hb2
          · rw [he]; omega
          · exact hmin b hb2

theorem onePass_resolves_ready (p : List ActionCls) :
    ∀ ids a, a ∈ p → (∀ d ∈ a.dependencies, d ∈ ids) →
      (onePass p ids).2.2 ≠ [] := by
  induction p with
  | nil =>
      intro ids a ha
      simp at ha
  | cons x rest ih =>
      intro ids a ha hdeps
      simp only [onePass]
      by_cases hc : (x.dependencies.all fun d => ids.contains d) = true
      · rw [if_pos hc]
        simp
      · rw [if_neg hc]
        have hax : a ≠ x := by
          intro he
          apply hc
          rw [← he]
          exact (all_deps_mem a.dependencies ids).mpr hdeps
        have ha2 : a ∈ rest := by
          rcases List.mem_cons.mp ha with he | h2
          · exact absurd he hax
          · exact h2
        exact ih ids a ha2 hdeps

theorem onePass_progress (rank : String → Nat) (ids : List String)
    (p : List ActionCls) (hne : p ≠ []) (hinv : InvP rank ids p) :
    (onePass p ids).2.2 ≠ [] := by
  obtain ⟨a, ha, hmin⟩ := exists_rank_min rank p hne
  apply onePass_resolves_ready p ids a ha
  intro d hd
  rcases hinv a ha d hd with h | ⟨b, hb, hbid, hrank⟩
  · exact h
  · exfalso
    have := hmin b hb
    rw [hbid] at this
    omega

theorem resolveLoop_success (rank : String → Nat) :
    ∀ pn ids p, InvP rank ids p → (¬pn = p.length ∨ p = []) →
      (resolveLoop pn ids p).pending = [] := by
  refine resolveLoop_induction
    (fun pn ids p => InvP rank ids p → (¬pn = p.length ∨ p = []) →
      (resolveLoop pn ids p).pending = []) ?_ ?_
  · intro pn ids p hg hinv hcond
    rcases hcond with h | h
    · exact absurd hg h
    · rw [resolveLoop_exit pn ids p hg, h]
  · intro pn ids p hg ih hinv _
    rw [resolveLoop_step pn ids p hg]
    apply ih (invP_preserved rank ids p hinv)
    by_cases hp : (onePass p ids).1 = []
    · right
      exact hp
    · left
      have hpne : p ≠ [] := by
        intro h0
        rw [h0] at hp
        simp [onePass] at hp
      have hout := onePass_progress rank ids p hpne hinv
      have hsum := onePass_sum p ids
      have houtlen : 0 < ((onePass p ids).2.2).length := List.length_pos.mpr hout
      intro he
      omega

theorem sortedDeps_cons (base : List String) (a : ActionCls) (out : List ActionCls)
    (ha : ∀ d ∈ a.dependencies, d ∈ base)
    (hout : SortedDeps (base ++ [a.id]) out) :
    SortedDeps base (a :: out) := by
  intro i hi d hd
  cases i with
  | zero =>
      exact List.mem_append_left _ (ha d hd)
  | succ j =>
      have hj : j < out.length := by
        simpa using hi
      have h2 := hout j hj d hd
      simp only [List.take_succ_cons, actionIds, List.map_cons, List.mem_append,
        List.mem_cons, List.mem_singleton] at h2 ⊢
      tauto

theorem sortedDeps_append (base : List String) (o1 o2 : List ActionCls)
    (h1 : SortedDeps base o1) (h2 : SortedDeps (base ++ actionIds o1) o2) :
    SortedDeps base (o1 ++ o2) := by
  intro i hi d hd
  by_cases hlt : i < o1.length
  · have hget : (o1 ++ o2).get ⟨i, hi⟩ = o1.get ⟨i, hlt⟩ := by
      simp [List.getElem_append_left hlt]
    rw [hget] at hd
    have h3 := h1 i hlt d hd
    have htake : (o1 ++ o2).take i = o1.take i := by
      rw [List.take_append_eq_append_take]
      have : i - o1.length = 0 := by omega
      rw [this]
      simp
    rw [htake]
    exact h3
  · push_neg at hlt
    have hk : i - o1.length < o2.length := by
      have := hi
      simp only [List.length_append] at this
      omega
    have hget : (o1 ++ o2).get ⟨i, hi⟩ = o2.get ⟨i - o1.length, hk⟩ := by
      simp [List.getElem_append_right hlt]
    rw [hget] at hd
    have h3 := h2 (i - o1.length) hk d hd
    have htake : (o1 ++ o2).take i = o1 ++ o2.take (i - o1.length) := by
      rw [List.take_append_eq_append_take]
      rw [List.take_of_length_le hlt]
    rw [htake]
    simp only [actionIds, List.map_append, List.mem_append] at h3 ⊢
    tauto

theorem onePass_sortedDeps (p : List ActionCls) :
    ∀ ids, SortedDeps ids ((onePass p ids).2.2) := by
  induction p with
  | nil =>
      intro ids i hi
      simp [onePass] at hi
  | cons a rest ih =>
      intro ids
      simp only [onePass]
      by_cases hc : (a.dependencies.all fun d => ids.contains d) = true
      · rw [if_pos hc]
        refine sortedDeps_cons ids a _ ?_ (ih (ids ++ [a.id]))
        intro d hd
        exact (all_deps_mem a.dependencies ids).mp hc d hd
      · rw [if_neg hc]
        exact ih ids

theorem resolveLoop_sortedDeps (pn : Nat) (ids : List String) (p : List ActionCls) :
    SortedDeps ids ((resolveLoop pn ids p).yielded) := by
  induction pn, ids, p using resolveLoop_induction with
  | exitc pn ids p hg =>
      rw [resolveLoop_exit pn ids p hg]
      intro i hi
      simp at hi
  | stepc pn ids p hg ih =>
      rw [resolveLoop_step pn ids p hg]
      refine sortedDeps_append ids _ _ (onePass_sortedDeps p ids) ?_
      rw [← onePass_ids p ids]
      exact ih

theorem sortById_perm (l : List ActionCls) : (sortById l).Perm l :=
  List.perm_insertionSort _ l

theorem rao_partition_perm (cands : List ActionCls) :
    (rao_immediate cands ++ rao_pending0 cands).Perm (sortById cands) := by
  simp only [rao_immediate, rao_pending0]
  exact List.filter_append_perm (fun a => a.dependencies.isEmpty) (sortById cands)

theorem rao_loop_prevNum (cands prev : List ActionCls) :
    (rao_loop cands prev).prevNum = ((rao_loop cands prev).pending).length :=
  resolveLoop_prevNum _ _ _

theorem initial_invP (cands prev : List ActionCls) (rank : String → Nat)
    (hr : ∀ a ∈ cands, ∀ d ∈ a.dependencies,
      d ∈ actionIds prev ∨ (d ∈ actionIds cands ∧ rank d < rank a.id)) :
    InvP rank (actionIds (rao_resolved0 cands prev)) (rao_pending0 cands) := by
  intro a ha d hd
  have hamem : a ∈ sortById cands := List.mem_of_mem_filter ha
  have hacand : a ∈ cands := (sortById_perm cands).mem_iff.mp hamem
  rcases hr a hacand d hd with h | ⟨hdc, hrank⟩
  · left
    simp only [rao_resolved0, actionIds, List.map_append, List.mem_append]
    left
    exact h
  · obtain ⟨b, hb, hbid⟩ := List.mem_map.mp hdc
    have hbsort : b ∈ sortById cands := (sortById_perm cands).mem_iff.mpr hb
    by_cases hbdep : b.dependencies.isEmpty = true
    · left
      simp only [rao_resolved0, actionIds, List.map_append, List.mem_append]
      right
      rw [← hbid]
      exact List.mem_map_of_mem ActionCls.id
        (List.mem_filter.mpr ⟨hbsort, hbdep⟩)
    · right
      refine ⟨b, List.mem_filter.mpr ⟨hbsort, ?_⟩, hbid, hrank⟩
      simp [hbdep]

theorem initial_guard (cands prev : List ActionCls) (rank : String → Nat)
    (hr : ∀ a ∈ cands, ∀ d ∈ a.dependencies,
      d ∈ actionIds prev ∨ (d ∈ actionIds cands ∧ rank d < rank a.id)) :
    ¬((sortById cands).length + prev.length) = (rao_pending0 cands).length ∨
      rao_pending0 cands = [] := by
  by_cases hp : rao_pending0 cands = []
  · right
    exact hp
  · left
    intro he
    have hlen : (rao_immediate cands).length + (rao_pending0 cands).length =
        (sortById cands).length := by
      have := (rao_partition_perm cands).length_eq
      simpa using this
    have hprev : prev = [] := by
      have : prev.length = 0 := by omega
      exact List.length_eq_zero.mp this
    have himm : rao_immediate cands = [] := by
      have : (rao_immediate cands).length = 0 := by omega
      exact List.length_eq_zero.mp this
    have hinv := initial_invP cands prev rank hr
    simp only [rao_resolved0, hprev, himm, List.append_nil, actionIds,
      List.map_nil] at hinv
    obtain ⟨a, ha, hmin⟩ := exists_rank_min rank (rao_pending0 cands) hp
    have hadeps : a.dependencies ≠ [] := by
      have := (List.mem_filter.mp ha).2
      intro h0
      rw [h0] at this
      simp at this
    obtain ⟨d, hd⟩ := List.exists_mem_of_ne_nil a.dependencies hadeps
    rcases hinv a ha d hd with h0 | ⟨b, hb, hbid, hrank⟩
    · simp at h0
    · have := hmin b hb
      rw [hbid] at this
      omega

theorem rao_loop_pending_nil (cands prev : List ActionCls)
    (hsat : DepsSatisfiable cands prev) :
    (rao_loop cands prev).pending = [] := by
  obtain ⟨rank, hr⟩ := hsat
  exact resolveLoop_success rank _ _ _ (initial_invP cands prev rank hr)
    (initial_guard cands prev rank hr)

theorem resolve_snd_none_of_satisfiable (cands prev : List ActionCls)
    (hsat : DepsSatisfiable cands prev) :
    (resolve_action_order cands prev).2 = none := by
  rw [resolve_action_order_eq]
  have h := rao_loop_pending_nil cands prev hsat
  have h2 := rao_loop_prevNum cands prev
  rw [h] at h2
  simp [h2]

theorem rao_yield_perm (cands prev : List ActionCls)
    (hsat : DepsSatisfiable cands prev) :
    ((resolve_action_order cands prev).1).Perm (prev ++ cands) := by
  rw [resolve_action_order_eq]
  have hperm := resolveLoop_perm ((sortById cands).length + prev.length)
    (actionIds (rao_resolved0 cands prev)) (rao_pending0 cands)
  have hnil : (rao_loop cands prev).pending = [] := rao_loop_pending_nil cands prev hsat
  rw [show (resolveLoop ((sortById cands).length + prev.length)
        (actionIds (rao_resolved0 cands prev)) (rao_pending0 cands)) =
      rao_loop cands prev from rfl, hnil, List.append_nil] at hperm
  refine List.Perm.trans ?_ ((sortById_perm cands).append_left prev)
  refine List.Perm.trans ?_ ((rao_partition_perm cands).append_left prev)
  have e1 : prev ++ (rao_immediate cands ++ rao_pending0 cands) =
      rao_resolved0 cands prev ++ rao_pending0 cands := by
    simp [rao_resolved0, List.append_assoc]
  rw [e1]
  exact hperm.symm.append_left (rao_resolved0 cands prev)

theorem mem_actionIds_take (out : List ActionCls) (i : Nat) (d : String)
    (hd : d ∈ actionIds (out.take i)) :
    ∃ j, ∃ hj : j < out.length, j < i ∧ (out.get ⟨j, hj⟩).id = d := by
  obtain ⟨b, hb, hbid⟩ := List.mem_map.mp hd
  obtain ⟨⟨j, hj⟩, hget⟩ := List.mem_iff_get.mp hb
  have hjlen : j < (out.take i).length := hj
  rw [List.length_take] at hjlen
  have hj2 : j < out.length := by omega
  have hji : j < i := by omega
  refine ⟨j, hj2, hji, ?_⟩
  have he : (out.take i).get ⟨j, hj⟩ = out.get ⟨j, hj2⟩ := by
    simp [List.get_eq_getElem, List.getElem_take]
  rw [← hbid, ← hget, he]

theorem depOrderOK_of_sortedDeps (prev out2 : List ActionCls)
    (hprev : ∀ p0 ∈ prev, ∀ d ∈ p0.dependencies, d ∈ actionIds prev)
    (hs : SortedDeps (actionIds prev) out2) :
    DepOrderOK prev (prev ++ out2) := by
  intro i hi d hd
  by_cases hlt : i < prev.length
  · left
    have hget : (prev ++ out2).get ⟨i, hi⟩ = prev.get ⟨i, hlt⟩ := by
      simp [List.get_eq_getElem, List.getElem_append_left hlt]
    rw [hget] at hd
    exact hprev _ (List.get_mem prev i hlt) d hd
  · push_neg at hlt
    have hk : i - prev.length < out2.length := by
      have := hi
      simp only [List.length_append] at this
      omega
    have hget : (prev ++ out2).get ⟨i, hi⟩ = out2.get ⟨i - prev.length, hk⟩ := by
      simp [List.get_eq_getElem, List.getElem_append_right hlt]
    rw [hget] at hd
    rcases List.mem_append.mp (hs (i - prev.length) hk d hd) with h | h
    · left
      exact h
    · obtain ⟨j, hj, hjk, hjid⟩ := mem_actionIds_take out2 (i - prev.length) d h
      right
      refine ⟨prev.length + j, ?_, by omega, ?_⟩
      · simp only [List.length_append]
        omega
      · have : (prev ++ out2).get ⟨prev.length + j,
            by simp only [List.length_append]; omega⟩ = out2.get ⟨j, hj⟩ := by
          simp [List.get_eq_getElem, List.getElem_append_right (Nat.le_add_right prev.length j)]
        rw [this]
        exact hjid

theorem rao_suffix_sortedDeps (cands prev : List ActionCls) :
    SortedDeps (actionIds prev)
      (rao_immediate cands ++ (rao_loop cands prev).yielded) := by
  apply sortedDeps_append
  · intro i hi d hd
    have hmem := List.get_mem (rao_immediate cands) i hi
    have h2 := (List.mem_filter.mp hmem).2
    rw [List.isEmpty_iff] at h2
    rw [h2] at hd
    simp at hd
  · have hs := resolveLoop_sortedDeps ((sortById cands).length + prev.length)
      (actionIds (rao_resolved0 cands prev)) (rao_pending0 cands)
    have e : actionIds (rao_resolved0 cands prev) =
        actionIds prev ++ actionIds (rao_immediate cands) := by
      simp [rao_resolved0, actionIds]
    rw [← e]
    exact hs

theorem rao_depOrder (cands prev : List ActionCls)
    (hprev : ∀ p0 ∈ prev, ∀ d ∈ p0.dependencies, d ∈ actionIds prev) :
    DepOrderOK prev ((resolve_action_order cands prev).1) := by
  rw [resolve_action_order_eq]
  show DepOrderOK prev (rao_resolved0 cands prev ++ (rao_loop cands prev).yielded)
  have e : rao_resolved0 cands prev ++ (rao_loop cands prev).yielded =
      prev ++ (rao_immediate cands ++ (rao_loop cands prev).yielded) := by
    simp [rao_resolved0, List.append_assoc]
  rw [e]
  exact depOrderOK_of_sortedDeps prev _ hprev (rao_suffix_sortedDeps cands prev)

theorem indexOf_lt_of_mem_take (l : List String) :
    ∀ (k : Nat) (d : String), d ∈ l.take k → l.indexOf d < k := by
  induction l with
  | nil =>
      intro k d hd
      simp at hd
  | cons x rest ih =>
      intro k d hd
      cases k with
      | zero => simp at hd
      | succ k2 =>
          rw [List.take_succ_cons] at hd
          by_cases hx : x = d
          · rw [hx, List.indexOf_cons_self]
            omega
          · rcases List.mem_cons.mp hd with he | h2
            · exact absurd he.symm hx
            · rw [List.indexOf_cons_ne rest hx]
              have := ih k2 d h2
              omega

theorem rao_out2_perm (cands prev : List ActionCls)
    (hpend : (rao_loop cands prev).pending = []) :
    (rao_immediate cands ++ (rao_loop cands prev).yielded).Perm cands := by
  have hperm := resolveLoop_perm ((sortById cands).length + prev.length)
    (actionIds (rao_resolved0 cands prev)) (rao_pending0 cands)
  rw [show (resolveLoop ((sortById cands).length + prev.length)
        (actionIds (rao_resolved0 cands prev)) (rao_pending0 cands)) =
      rao_loop cands prev from rfl, hpend, List.append_nil] at hperm
  refine List.Perm.trans ?_ (sortById_perm cands)
  refine List.Perm.trans ?_ (rao_partition_perm cands)
  exact hperm.symm.append_left (rao_immediate cands)

theorem satisfiable_of_resolve_ok (cands prev : List ActionCls)
    (hnodup : (actionIds prev ++ actionIds cands).Nodup)
    (hok : (resolve_action_order cands prev).2 = none) :
    DepsSatisfiable cands prev := by
  rw [resolve_action_order_eq] at hok
  by_cases hc : (rao_loop cands prev).prevNum ≠ 0
  · rw [if_pos hc] at hok
    exact absurd hok (by simp)
  · push_neg at hc
    have hpend : (rao_loop cands prev).pending = [] := by
      apply List.length_eq_zero.mp
      rw [← rao_loop_prevNum]
      exact hc
    have hperm2 := rao_out2_perm cands prev hpend
    have hcandsN : (actionIds cands).Nodup := List.Nodup.of_append_right hnodup
    set out2 := rao_immediate cands ++ (rao_loop cands prev).yielded with hout2
    have hidsN : (actionIds out2).Nodup :=
      ((hperm2.map ActionCls.id).nodup_iff).mpr hcandsN
    refine ⟨fun s => (actionIds out2).indexOf s, ?_⟩
    intro a ha d hd
    have hamem : a ∈ out2 := hperm2.mem_iff.mpr ha
    obtain ⟨⟨k, hk⟩, hget⟩ := List.mem_iff_get.mp hamem
    have hd2 : d ∈ (out2.get ⟨k, hk⟩).dependencies := by
      rw [hget]
      exact hd
    have h3 := rao_suffix_sortedDeps cands prev k hk d hd2
    rcases List.mem_append.mp h3 with h | h
    · left
      exact h
    · have htake : d ∈ (actionIds out2).take k := by
        rw [actionIds, ← List.map_take]
        exact h
      right
      constructor
      · have hdin : d ∈ actionIds out2 := List.mem_of_mem_take htake
        exact ((hperm2.map ActionCls.id).mem_iff).mp hdin
      · have hlt : (actionIds out2).indexOf d < k :=
          indexOf_lt_of_mem_take (actionIds out2) k d htake
        have hk2 : k < (actionIds out2).length := by
          rw [actionIds, List.length_map]
          exact hk
        have hidx : (actionIds out2).indexOf a.id = k := by
          rw [← hget]
          have e : (out2.get ⟨k, hk⟩).id = (actionIds out2).get ⟨k, hk2⟩ := by
            simp [actionIds, List.get_eq_getElem]
          rw [e]
          have h4 := List.indexOf_getElem hidsN k hk2
          simpa [List.get_eq_getElem] using h4
        show (actionIds out2).indexOf d < (actionIds out2).indexOf a.id
        omega

theorem rao_loop_eval (cands prev : List ActionCls) :
    rao_loop cands prev = rao_loopF cands prev :=
  (resolveLoop_eq_fuel _ _ _ _ (le_refl _)).symm

theorem resolve_action_order_eval (cands prev : List ActionCls) :
    resolve_action_order cands prev =
      (rao_resolved0 cands prev ++ (rao_loopF cands prev).yielded,
       if (rao_loopF cands prev).prevNum ≠ 0
       then some { message := "Unresolvable Dependencies in these actions: " ++
                     String.intercalate ", " (actionIds (rao_loopF cands prev).pending),
                   unresolved_actions := [], resolved_actions := [] }
       else none) := by
  rw [resolve_action_order_eq, rao_loop_eval]

/-- C4: for candidate units whose ids (together with the previously resolved
units' ids) are all distinct, whose dependencies are acyclic and defined
among the candidates or the previously resolved list (witnessed by a rank
function), and with the previously resolved list itself dependency-closed
(which is what being previously *resolved* means), resolve_action_order
finishes without a DependencyError, yields every candidate exactly once and
every previously resolved unit exactly once (previously resolved units are
not duplicated), and for every yielded unit each of its dependency ids
belongs to a previously resolved unit or to a unit yielded strictly
earlier. -/
theorem claim_C4_resolve_order_complete (cands prev : List ActionCls)
    (hnodup : (actionIds prev ++ actionIds cands).Nodup)
    (hprev : ∀ p0 ∈ prev, ∀ d ∈ p0.dependencies, d ∈ actionIds prev)
    (hsat : DepsSatisfiable cands prev) :
    (resolve_action_order cands prev).2 = none ∧
    (∀ c ∈ cands, ((resolve_action_order cands prev).1).count c = 1) ∧
    (∀ p0 ∈ prev, ((resolve_action_order cands prev).1).count p0 = 1) ∧
    DepOrderOK prev ((resolve_action_order cands prev).1) := by
  have hperm := rao_yield_perm cands prev hsat
  have hnodupE : (prev ++ cands).Nodup := by
    apply List.Nodup.of_map ActionCls.id
    rw [List.map_append]
    exact hnodup
  refine ⟨resolve_snd_none_of_satisfiable cands prev hsat, ?_, ?_,
    rao_depOrder cands prev hprev⟩
  · intro c hc
    rw [hperm.count_eq]
    exact List.count_eq_one_of_mem hnodupE (List.mem_append_right _ hc)
  · intro p0 hp0
    rw [hperm.count_eq]
    exact List.count_eq_one_of_mem hnodupE (List.mem_append_left _ hp0)

/-- Witness for C4 at the concrete input candidates = [B (dep "A")],
previously resolved = [A]. -/
theorem claim_C4_witness :
    (actionIds [aCls] ++ actionIds [bCls]).Nodup ∧
    (resolve_action_order [bCls] [aCls]).2 = none ∧
    ((resolve_action_order [bCls] [aCls]).1).count bCls = 1 ∧
    ((resolve_action_order [bCls] [aCls]).1).count aCls = 1 ∧
    DepOrderOK [aCls] ((resolve_action_order [bCls] [aCls]).1) := by
  have h := claim_C4_resolve_order_complete [bCls] [aCls] (by decide)
    (by decide) ⟨fun _ => 0, by decide⟩
  exact ⟨by decide, h.1, h.2.1 bCls (by decide), h.2.2.1 aCls (by decide), h.2.2.2⟩

/-- C5 (amended): for candidate units with distinct ids among which some
dependency id is never defined or the dependencies form a cycle (no rank
function exists), fully consuming resolve_action_order raises a
DependencyError and never completes silently; the unresolved unit ids are
reported in the exception's message text, while its unresolved_actions and
resolved_actions attributes are left at their empty-list defaults because
the raise site passes only a message. -/
theorem claim_C5_resolve_order_error (cands prev : List ActionCls)
    (hnodup : (actionIds prev ++ actionIds cands).Nodup)
    (hunsat : ¬DepsSatisfiable cands prev) :
    ∃ e, (resolve_action_order cands prev).2 = some e ∧
      e.unresolved_actions = [] ∧ e.resolved_actions = [] ∧
      ∃ rem, rem ≠ [] ∧
        e.message = "Unresolvable Dependencies in these actions: " ++
          String.intercalate ", " rem := by
  have hne : (resolve_action_order cands prev).2 ≠ none := by
    intro h
    exact hunsat (satisfiable_of_resolve_ok cands prev hnodup h)
  rw [resolve_action_order_eq] at hne ⊢
  by_cases hc : (rao_loop cands prev).prevNum ≠ 0
  · rw [if_pos hc]
    refine ⟨_, rfl, rfl, rfl, actionIds ((rao_loop cands prev).pending), ?_, rfl⟩
    have hpne : (rao_loop cands prev).pending ≠ [] := by
      intro h0
      apply hc
      rw [rao_loop_prevNum, h0]
      rfl
    simp only [actionIds, ne_eq, List.map_eq_nil_iff]
    exact hpne
  · exfalso
    apply hne
    rw [if_neg hc]

/-- Counterexample for C5 as stated: at candidates [Zero, One (dep
"Unknown")] the unresolved unit is One and the resolved-so-far list is
[Zero], yet the raised DependencyError carries empty unresolved_actions and
resolved_actions attributes — only its message names One. -/
theorem claim_C5_counterexample :
    (resolve_action_order [zeroCls, oneUnknownCls] []).2 =
      some { message := "Unresolvable Dependencies in these actions: One",
             unresolved_actions := [], resolved_actions := [] } ∧
    ([] : List ActionCls) ≠ [oneUnknownCls] ∧
    ([] : List ActionCls) ≠ [zeroCls] := by
  rw [resolve_action_order_eval]
  refine ⟨?_, by decide, by decide⟩
  decide

/-- Witness for C5 at the concrete input candidates = [One (dep "Unknown")]. -/
theorem claim_C5_witness :
    ∃ e, (resolve_action_order [oneUnknownCls] []).2 = some e ∧
      e.unresolved_actions = [] ∧ e.resolved_actions = [] ∧
      ∃ rem, rem ≠ [] ∧
        e.message = "Unresolvable Dependencies in these actions: " ++
          String.intercalate ", " rem := by
  apply claim_C5_resolve_order_error [oneUnknownCls] [] (by decide)
  intro hsat
  obtain ⟨rank, hr⟩ := hsat
  have h := hr oneUnknownCls (by decide) "Unknown" (by decide)
  rcases h with h0 | ⟨h1, _⟩
  · simp [actionIds] at h0
  · simp [actionIds, oneUnknownCls] at h1

theorem referencePassAux_eq (scan : List ActionCls) :
    ∀ (ids : List String) (pendAcc outAcc : List ActionCls),
      referencePassAux scan ids pendAcc outAcc =
        (pendAcc ++ (onePass scan ids).1, (onePass scan ids).2.1,
         outAcc ++ (onePass scan ids).2.2) := by
  induction scan with
  | nil =>
      intro ids pendAcc outAcc
      simp [referencePassAux, onePass]
  | cons a rest ih =>
      intro ids pendAcc outAcc
      simp only [referencePassAux, onePass]
      by_cases hc : (a.dependencies.all fun d => ids.contains d) = true
      · rw [if_pos hc, if_pos hc, ih]
        simp
      · rw [if_neg hc, if_neg hc, ih]
        simp

theorem referencePass_eq (pending : List ActionCls) (ids : List String) :
    referencePass pending ids = onePass pending ids := by
  rw [referencePass, referencePassAux_eq]
  simp

theorem referenceRounds_stop (pending : List ActionCls) (ids : List String)
    (h : (referencePass pending ids).2.2.isEmpty = true) :
    referenceRounds pending ids = (pending, ids, []) := by
  conv_lhs => rw [referenceRounds.eq_def]
  rw [dif_pos h]

theorem referenceRounds_go (pending : List ActionCls) (ids : List String)
    (h : ¬(referencePass pending ids).2.2.isEmpty = true) :
    referenceRounds pending ids =
      ((referenceRounds (referencePass pending ids).1 (referencePass pending ids).2.1).1,
       (referenceRounds (referencePass pending ids).1 (referencePass pending ids).2.1).2.1,
       (referencePass pending ids).2.2 ++
         (referenceRounds (referencePass pending ids).1 (referencePass pending ids).2.1).2.2) := by
  conv_lhs => rw [referenceRounds.eq_def]
  rw [dif_neg h]

theorem onePass_none_ready (p : List ActionCls) :
    ∀ ids : List String,
      (∀ a ∈ p, (a.dependencies.all fun d => ids.contains d) = false) →
      onePass p ids = (p, ids, []) := by
  induction p with
  | nil =>
      intro ids _
      simp [onePass]
  | cons a rest ih =>
      intro ids h
      simp only [onePass]
      have hc := h a (List.mem_cons_self a rest)
      rw [if_neg (by rw [hc]; simp)]
      rw [ih ids (fun b hb => h b (List.mem_cons_of_mem a hb))]

theorem resolveLoop_eq_rounds :
    ∀ (n : Nat) (p : List ActionCls) (ids : List String) (pn : Nat),
      p.length ≤ n → ¬pn = p.length →
      (resolveLoop pn ids p).yielded = (referenceRounds p ids).2.2 ∧
      (resolveLoop pn ids p).ids = (referenceRounds p ids).2.1 ∧
      (resolveLoop pn ids p).pending = (referenceRounds p ids).1 := by
  intro n
  induction n with
  | zero =>
      intro p ids pn hp hg
      have hpnil : p = [] := List.length_eq_zero.mp (by omega)
      subst hpnil
      rw [resolveLoop_step pn ids [] hg]
      have hstop := referenceRounds_stop [] ids (by rw [referencePass_eq]; rfl)
      rw [hstop]
      have hexit := resolveLoop_exit 0 ids [] rfl
      simp [onePass, hexit]
  | succ n ih =>
      intro p ids pn hp hg
      rw [resolveLoop_step pn ids p hg]
      by_cases hout : (onePass p ids).2.2 = []
      · have hstop := referenceRounds_stop p ids
          (by rw [referencePass_eq, hout]; rfl)
        rw [hstop]
        have hnp := onePass_noprogress p ids hout
        rw [hnp, resolveLoop_exit p.length ids p rfl]
        simp
      · have hgo := referenceRounds_go p ids
          (by rw [referencePass_eq]; simpa using hout)
        rw [hgo, referencePass_eq]
        have hsum := onePass_sum p ids
        have houtlen : 0 < ((onePass p ids).2.2).length := List.length_pos.mpr hout
        have hlen : ((onePass p ids).1).length < p.length := by omega
        obtain ⟨h1, h2, h3⟩ := ih (onePass p ids).1 (onePass p ids).2.1 p.length
          (by omega) (by omega)
        exact ⟨by rw [h1], by rw [h2], by rw [h3]⟩

theorem reference_resolve_order_eq (cands prev : List ActionCls) :
    reference_resolve_order cands prev =
      (rao_resolved0 cands prev ++
        (referenceRounds (rao_pending0 cands) (actionIds (rao_resolved0 cands prev))).2.2,
       if (referenceRounds (rao_pending0 cands) (actionIds (rao_resolved0 cands prev))).1.isEmpty
       then none
       else some { message := "Unresolvable Dependencies in these actions: " ++
                     String.intercalate ", "
                       (actionIds (referenceRounds (rao_pending0 cands)
                         (actionIds (rao_resolved0 cands prev))).1),
                   unresolved_actions := [], resolved_actions := [] }) := by
  simp only [reference_resolve_order, rao_resolved0, rao_immediate, rao_pending0]
  split
  · rfl
  · rfl

/-- C3: resolve_action_order computes exactly what the reference algorithm
of the spec computes — sort candidates by id ascending, emit
previously_resolved followed by the no-dependency candidates in id order,
then repeat linear passes over the pending list in its existing order
(never re-sorted) until a pass resolves nothing new — the yielded sequences
are equal and one raises a DependencyError exactly when the other does.
Determinism (two runs on identical input yield identical output order) is
recorded by the last conjunct and is immediate because the embedding of
both algorithms is a pure function of the input. -/
theorem claim_C3_reference_equivalence (cands prev : List ActionCls) :
    (resolve_action_order cands prev).1 = (reference_resolve_order cands prev).1 ∧
    ((resolve_action_order cands prev).2).isSome =
      ((reference_resolve_order cands prev).2).isSome ∧
    resolve_action_order cands prev = resolve_action_order cands prev := by
  by_cases hg : ((sortById cands).length + prev.length) = (rao_pending0 cands).length
  · have hexit : rao_loop cands prev =
        ⟨rao_pending0 cands, actionIds (rao_resolved0 cands prev),
         (sortById cands).length + prev.length, []⟩ :=
      resolveLoop_exit _ _ _ hg
    have hlen : (rao_immediate cands).length + (rao_pending0 cands).length =
        (sortById cands).length := by
      have := (rao_partition_perm cands).length_eq
      simpa using this
    have hprev0 : prev = [] := by
      apply List.length_eq_zero.mp
      have hle : (rao_pending0 cands).length ≤ (sortById cands).length := by omega
      omega
    have himm : rao_immediate cands = [] := by
      apply List.length_eq_zero.mp
      omega
    have hids0 : actionIds (rao_resolved0 cands prev) = [] := by
      simp [rao_resolved0, hprev0, himm, actionIds]
    have hnr : onePass (rao_pending0 cands) (actionIds (rao_resolved0 cands prev)) =
        (rao_pending0 cands, actionIds (rao_resolved0 cands prev), []) := by
      apply onePass_none_ready
      intro a ha
      have hdep := (List.mem_filter.mp ha).2
      rw [hids0]
      cases hd : a.dependencies with
      | nil => rw [hd] at hdep; simp at hdep
      | cons d ds => simp
    have hstop := referenceRounds_stop (rao_pending0 cands)
      (actionIds (rao_resolved0 cands prev))
      (by rw [referencePass_eq, hnr]; rfl)
    rw [resolve_action_order_eq, reference_resolve_order_eq, hexit, hstop]
    refine ⟨by simp, ?_, rfl⟩
    by_cases hpe : rao_pending0 cands = []
    · have hz : (sortById cands).length + prev.length = 0 := by
        rw [hg, hpe]
        rfl
      simp [hz, hpe]
    · have hnz : (sortById cands).length + prev.length ≠ 0 := by
        rw [hg]
        intro h0
        exact hpe (List.length_eq_zero.mp h0)
      simp [hnz, hpe, List.isEmpty_iff]
  · obtain ⟨h1, h2, h3⟩ := resolveLoop_eq_rounds (rao_pending0 cands).length
      (rao_pending0 cands) (actionIds (rao_resolved0 cands prev))
      ((sortById cands).length + prev.length) (le_refl _) hg
    have h1b : (rao_loop cands prev).yielded =
        (referenceRounds (rao_pending0 cands)
          (actionIds (rao_resolved0 cands prev))).2.2 := h1
    have h3b : (rao_loop cands prev).pending =
        (referenceRounds (rao_pending0 cands)
          (actionIds (rao_resolved0 cands prev))).1 := h3
    rw [resolve_action_order_eq, reference_resolve_order_eq]
    refine ⟨by rw [h1b], ?_, rfl⟩
    by_cases hre : (referenceRounds (rao_pending0 cands)
        (actionIds (rao_resolved0 cands prev))).1 = []
    · have hz : (rao_loop cands prev).prevNum = 0 := by
        rw [rao_loop_prevNum, h3b, hre]
        rfl
      simp [hz, hre]
    · have hnz : (rao_loop cands prev).prevNum ≠ 0 := by
        rw [rao_loop_prevNum, h3b]
        intro h0
        exact hre (List.length_eq_zero.mp h0)
      simp [hnz, List.isEmpty_iff, hre]

theorem hread_halloc_lt (s : PyStore) (v : List ActionState) (r : Nat)
    (h : r < s.length) : hread (halloc s v).1 r = hread s r := by
  simp [hread, halloc, List.getD_eq_getElem?_getD, List.getElem?_append_left h]

theorem halloc_ref (s : PyStore) (v : List ActionState) :
    (halloc s v).2 = s.length := rfl

theorem halloc_length (s : PyStore) (v : List ActionState) :
    (halloc s v).1.length = s.length + 1 := by
  simp [halloc]

theorem hwrite_length (s : PyStore) (r : Nat) (v : List ActionState) :
    (hwrite s r v).length = s.length := by
  simp [hwrite]

theorem happend_length (s : PyStore) (r : Nat) (a : ActionState) :
    (happend s r a).length = s.length := by
  simp [happend, hwrite]

theorem hread_hwrite_ne (s : PyStore) (r r2 : Nat) (v : List ActionState)
    (h : r ≠ r2) : hread (hwrite s r2 v) r = hread s r := by
  simp [hread, hwrite, List.getD_eq_getElem?_getD, List.getElem?_set_ne (Ne.symm h)]

theorem hread_happend_ne (s : PyStore) (r r2 : Nat) (a : ActionState)
    (h : r ≠ r2) : hread (happend s r2 a) r = hread s r :=
  hread_hwrite_ne s r r2 _ h

theorem categorize_frame (s : PyStore) (sR fR : Nat) (a : ActionState)
    (s2 : PyStore) (h : categorize s sR fR a = .ok s2) :
    s2.length = s.length ∧
    ∀ r, r ≠ sR → r ≠ fR → hread s2 r = hread s r := by
  simp only [categorize] at h
  split at h
  · simp at h
  · split at h
    · simp at h
    · injection h with h2
      subst h2
      constructor
      · split
        · split
          · simp [happend_length]
          · simp [happend_length]
        · split
          · simp [happend_length]
          · rfl
      · intro r hr1 hr2
        split
        · split
          · rw [hread_happend_ne _ _ _ _ hr2, hread_happend_ne _ _ _ _ hr1]
          · rw [hread_happend_ne _ _ _ _ hr2]
        · split
          · rw [hread_happend_ne _ _ _ _ hr1]
          · rfl

theorem stageLoop_frame (cs : List ActionCls) :
    ∀ (s : PyStore) (sR fR kR : Nat) (s2 : PyStore),
      stageLoop cs s sR fR kR = .ok s2 →
      s2.length = s.length ∧
      ∀ r, r ≠ sR → r ≠ fR → r ≠ kR → hread s2 r = hread s r := by
  induction cs with
  | nil =>
      intro s sR fR kR s2 h
      simp only [stageLoop] at h
      injection h with h2
      subst h2
      exact ⟨rfl, fun r _ _ _ => rfl⟩
  | cons c rest ih =>
      intro s sR fR kR s2 h
      simp only [stageLoop] at h
      split at h
      · split at h
        · simp at h
        · split at h
          · simp at h
          · rename_i s1 hcat
            obtain ⟨hl1, hf1⟩ := categorize_frame _ _ _ _ _ hcat
            obtain ⟨hl2, hf2⟩ := ih _ _ _ _ _ h
            refine ⟨by omega, ?_⟩
            intro r h1 h2 h3
            rw [hf2 r h1 h2 h3, hf1 r h1 h2]
      · split at h
        · simp at h
        · obtain ⟨hl2, hf2⟩ := ih _ _ _ _ _ h
          refine ⟨by rw [hl2, happend_length], ?_⟩
          intro r h1 h2 h3
          rw [hf2 r h1 h2 h3, hread_happend_ne _ _ _ _ h3]

theorem stage_run_frame : (s : Stage) → ∀ (st : PyStore) (a b c : Option Nat)
    (out : PyStore × Nat × Nat × Nat × Stage),
    Stage.run s st a b c = Except.ok out →
    ∀ r, r < st.length → hread out.1 r = hread st r
  | .mk name acts none hr => by
      intro st a b c out h r hrlt
      rcases a with _ | ra <;> rcases b with _ | rb <;> rcases c with _ | rc <;>
      · simp only [Stage.run] at h
        split at h
        · simp at h
        · split at h
          · simp at h
          · split at h
            · simp at h
            · injection h with h2
              subst h2
              obtain ⟨hl, hf⟩ := stageLoop_frame _ _ _ _ _ _ (by assumption)
              rw [hf r (by simp [halloc]; omega) (by simp [halloc]; omega)
                (by simp [halloc]; omega)]
              rw [hread_halloc_lt _ _ _ (by simp [halloc]; omega),
                hread_halloc_lt _ _ _ (by simp [halloc]; omega),
                hread_halloc_lt _ _ _ hrlt]
  | .mk name acts (some ns) hr => by
      intro st a b c out h r hrlt
      rcases a with _ | ra <;> rcases b with _ | rb <;> rcases c with _ | rc <;>
      · simp only [Stage.run] at h
        split at h
        · simp at h
        · split at h
          · simp at h
          · split at h
            · simp at h
            · split at h
              · simp at h
              · injection h with h2
                subst h2
                obtain ⟨hl, hf⟩ := stageLoop_frame _ _ _ _ _ _ (by assumption)
                have hrec := stage_run_frame ns _ _ _ _ _ (by assumption) r
                  (by rw [hl]; simp [halloc]; omega)
                rw [hrec]
                rw [hf r (by simp [halloc]; omega) (by simp [halloc]; omega)
                  (by simp [halloc]; omega)]
                rw [hread_halloc_lt _ _ _ (by simp [halloc]; omega),
                  hread_halloc_lt _ _ _ (by simp [halloc]; omega),
                  hread_halloc_lt _ _ _ hrlt]

/-- C10: Stage.run never mutates the lists passed by its caller: it copies
them into fresh list objects (lines 335-349) and appends only to the
copies, and a chained next stage receives the copies, never the original
objects (lines 388-391).  For every stage, store and caller-owned list
objects, a completed run leaves the contents of each caller object
unchanged. -/
theorem claim_C10_run_does_not_mutate_callers_lists (s : Stage) (st : PyStore)
    (r1 r2 r3 : Nat) (out : PyStore × Nat × Nat × Nat × Stage)
    (h1 : r1 < st.length) (h2 : r2 < st.length) (h3 : r3 < st.length)
    (hok : Stage.run s st (some r1) (some r2) (some r3) = Except.ok out) :
    hread out.1 r1 = hread st r1 ∧ hread out.1 r2 = hread st r2 ∧
    hread out.1 r3 = hread st r3 :=
  ⟨stage_run_frame s st _ _ _ out hok r1 h1,
   stage_run_frame s st _ _ _ out hok r2 h2,
   stage_run_frame s st _ _ _ out hok r3 h3⟩

/-- Witness for C10: running the one-action demo stage on caller lists
[stA], [], [] stored at identities 0, 1 and 2 leaves all three caller
lists unchanged (the run appends the new result only to the fresh copy at
identity 3). -/
theorem claim_C10_witness :
    Stage.run demoStage [[stA], [], []] (some 0) (some 1) (some 2) =
      Except.ok ([[stA], [], [], [stA, stA], [], []], 3, 4, 5, demoStage) ∧
    hread ([[stA], [], [], [stA, stA], [], []] : PyStore) 0 =
      hread [[stA], [], []] 0 ∧
    hread ([[stA], [], [], [stA, stA], [], []] : PyStore) 1 =
      hread [[stA], [], []] 1 ∧
    hread ([[stA], [], [], [stA, stA], [], []] : PyStore) 2 =
      hread [[stA], [], []] 2 := by
  have hres : resolve_action_order [aCls] [] = ([aCls], none) := by
    rw [resolve_action_order_eval]
    decide
  have hrun : Stage.run demoStage [[stA], [], []] (some 0) (some 1) (some 2) =
      Except.ok ([[stA], [], [], [stA, stA], [], []], 3, 4, 5, demoStage) := by
    simp only [demoStage, Stage.run, hres]
    decide
  have h := claim_C10_run_does_not_mutate_callers_lists demoStage
    [[stA], [], []] 0 1 2 _ (by decide) (by decide) (by decide) hrun
  exact ⟨hrun, h.1, h.2.1, h.2.2⟩

/-- C7 (bug evidence): Stage.run tests `_has_run` (lines 332-333) but no
statement ever sets it, so the guard can never fire.  First conjunct: every
successful run returns the Stage with has_run exactly as it was (never set
to True).  Second conjunct: a full run of the one-action demo stage returns
the stage object literally unchanged, has_run still False — since the
object state after the first completed call is identical to the initial
state, a second run() call evaluates to the same successful result instead
of raising.  Third conjunct: the guard does raise ActionError when the flag
is True, pinning the defect to the flag never being set. -/
theorem claim_C7_rerun_guard_never_armed :
    (∀ (s : Stage) (st : PyStore) (a b c : Option Nat)
       (out : PyStore × Nat × Nat × Nat × Stage),
       Stage.run s st a b c = Except.ok out →
       (out.2.2.2.2).has_run = s.has_run) ∧
    Stage.run demoStage [] none none none =
      Except.ok ([[stA], [], []], 0, 1, 2, demoStage) ∧
    Stage.run (Stage.mk "demo" [aCls] none true) [] none none none =
      Except.error (.actionError "Stage demo has already run.") := by
  refine ⟨?_, ?_, ?_⟩
  · intro s st a b c out h
    cases s with
    | mk name acts next hr =>
        rw [Stage.run.eq_def] at h
        repeat' split at h
        all_goals try simp only [] at h
        repeat' split at h
        all_goals first
          | (injection h; done)
          | (injection h with h2
             subst h2
             injection (by assumption :
               Stage.mk name acts next hr = Stage.mk _ _ _ _) with e1 e2 e3 e4
             rw [e4]
             rfl)
  · have hres : resolve_action_order [aCls] [] = ([aCls], none) := by
      rw [resolve_action_order_eval]
      decide
    simp only [demoStage, Stage.run, hres]
    decide
  · simp only [Stage.run]
    decide

/-- C1 (bug evidence): at the failing input [A (no deps, succeeds),
B (dep "A")], Stage.run runs A to success, yet computes
failed_deps = ["A"] for B — the membership test `d not in successes`
(line 353) compares the dependency id string with Action instances, and a
str never equals an Action instance in Python, so the test never finds the
successful A.  B is therefore skipped: status SKIP (450), the skip message,
error_id "SKIP", and an entry point that was never invoked (has_run still
False) — where the claim says failed_deps is empty and B runs. -/
theorem claim_C1_dependent_unit_always_skipped :
    failed_deps_of bCls [stA] = ["A"] ∧
    Stage.run stageAB [] none none none =
      Except.ok ([[stA], [], [stBSkip]], 0, 1, 2, stageAB) ∧
    stBSkip.status = some (statusValue "SKIP") ∧
    stBSkip.has_run = false := by
  refine ⟨by decide, ?_, by decide, by decide⟩
  have hres : resolve_action_order [aCls, bCls] [] = ([aCls, bCls], none) := by
    rw [resolve_action_order_eval]
    decide
  simp only [stageAB, Stage.run, hres]
  decide

/-- C2 (bug evidence): the unhandled-exception path calls
`set_result(status=STATUS_CODE["ERROR"], ...)` (line 379), but set_result
looks its status argument up in STATUS_CODE (line 231), whose keys are the
status *names* — indexing it with the integer 900 raises KeyError.  First
conjunct: set_result with any integer status always raises KeyError.
Second conjunct: a stage whose single action raises "boom" does not record
the action as a failure with status ERROR — the KeyError escapes
Stage.run itself, where the claim says no exception propagates. -/
theorem claim_C2_fault_conversion_raises_keyerror :
    (∀ (a : ActionState) (eid msg : String) (n : Nat),
       set_result a (.int n) eid msg = Except.error (.keyError (.int n))) ∧
    Stage.run boomStage [] none none none =
      Except.error (.keyError (.int 900)) := by
  constructor
  · intro a eid msg n
    rfl
  · have hres : resolve_action_order [boomCls] [] = ([boomCls], none) := by
      rw [resolve_action_order_eval]
      decide
    simp only [boomStage, Stage.run, hres]
    decide

/-- C6 (bug evidence): Stage.check_dependencies accepts a
previous_stage_actions parameter but never uses it (lines 298-310) — the
resolver runs on each stage's own actions alone.  First conjunct: the
result does not depend on the parameter at all.  Second conjunct: in the
chain [stage one: A] → [stage two: B (dep "A")], where B's dependency is
resolved by the earlier stage and the claim says check_dependencies
succeeds, the code raises DependencyError naming B. -/
theorem claim_C6_check_dependencies_ignores_previous_stages :
    (∀ (s : Stage) (p q : Option (List ActionCls)),
       Stage.check_dependencies s p = Stage.check_dependencies s q) ∧
    Stage.check_dependencies chainOne none =
      Except.error (.dependencyError
        { message := "Unresolvable Dependencies in these actions: B",
          unresolved_actions := [], resolved_actions := [] }) := by
  constructor
  · intro s p q
    cases s
    rw [Stage.check_dependencies.eq_def, Stage.check_dependencies.eq_def]
  · have h1 : resolve_action_order [aCls] [] = ([aCls], none) := by
      rw [resolve_action_order_eval]
      decide
    have h2 : resolve_action_order [bCls] [] =
        ([], some { message := "Unresolvable Dependencies in these actions: B",
                    unresolved_actions := [], resolved_actions := [] }) := by
      rw [resolve_action_order_eval]
      decide
    simp only [chainOne, chainTwo, Stage.check_dependencies, h1, h2]

/-- C8 (bug evidence): the default-success wrapper is applied to the base
Action.run only; Convert2rhelLatest.run overrides run() without the
decorator and without delegating, so on its no-internet early-return path
the instance's status remains the unset sentinel None instead of
SUCCESS (0) — while a subclass that delegates to the base (like A here)
does get status SUCCESS filled in. -/
theorem claim_C8_default_success_skips_overrides :
    actionRun convert2rhelLatestNoInternet.behavior
      (mkInstance convert2rhelLatestNoInternet) =
      Except.ok (mkInstance convert2rhelLatestNoInternet) ∧
    (mkInstance convert2rhelLatestNoInternet).status = none ∧
    (mkInstance convert2rhelLatestNoInternet).status ≠
      some (statusValue "SUCCESS") ∧
    actionRun aCls.behavior (mkInstance aCls) =
      Except.ok { id := "A", dependencies := [], status := some 0,
                  message := none, error_id := none, has_run := true } := by
  exact ⟨by decide, by decide, by decide, by decide⟩

/-- C9: find_failed_actions is pure and returns exactly the ids whose
status is strictly greater than WARNING (300): membership in its output is
equivalent to having a record with status > WARNING; on the example
mapping {"X": status 900, "Y": status 0} it returns ["X"]; and an id all of
whose records have status ≤ WARNING (so WARNING or SUCCESS) is never
returned. -/
theorem claim_C9_find_failed_actions_strictly_above_warning :
    (∀ (results : List (String × ActionResult)) (i : String),
       i ∈ find_failed_actions results ↔
       ∃ r, (i, r) ∈ results ∧ statusValue "WARNING" < r.status) ∧
    find_failed_actions exResults = ["X"] ∧
    (∀ (results : List (String × ActionResult)) (i : String),
       (∀ r, (i, r) ∈ results → r.status ≤ statusValue "WARNING") →
       i ∉ find_failed_actions results) := by
  have hmem : ∀ (results : List (String × ActionResult)) (i : String),
      i ∈ find_failed_actions results ↔
      ∃ r, (i, r) ∈ results ∧ statusValue "WARNING" < r.status := by
    intro results i
    simp only [find_failed_actions, List.mem_map, List.mem_filter]
    constructor
    · rintro ⟨⟨i2, r⟩, ⟨hmem2, hp⟩, rfl⟩
      exact ⟨r, hmem2, by simpa using hp⟩
    · rintro ⟨r, hmem2, hlt⟩
      exact ⟨(i, r), ⟨hmem2, by simpa using hlt⟩, rfl⟩
  refine ⟨hmem, by decide, ?_⟩
  intro results i hall hin
  obtain ⟨r, hr, hlt⟩ := (hmem results i).mp hin
  have := hall r hr
  omega

/-- Witness for C9 at the example mapping: "Y" has status 0 (SUCCESS), so
it is not returned. -/
theorem claim_C9_witness :
    (("Y", { status := 0, error_id := none, message := none }) ∈ exResults) ∧
    "Y" ∉ find_failed_actions exResults := by
  refine ⟨by decide, ?_⟩
  apply claim_C9_find_failed_actions_strictly_above_warning.2.2 exResults "Y"
  intro r hr
  simp only [exResults, List.mem_cons, List.not_mem_nil, or_false,
    Prod.mk.injEq] at hr
  rcases hr with ⟨h1, _⟩ | ⟨_, h2⟩
  · exact absurd h1 (by decide)
  · rw [h2]
    decide

/-- Witness for C7 at the one-action demo stage: a successful run exists
and the returned Stage carries has_run unchanged. -/
theorem claim_C7_witness :
    Stage.run demoStage [] none none none =
      Except.ok ([[stA], [], []], 0, 1, 2, demoStage) ∧
    ((([[stA], [], []], 0, 1, 2, demoStage) :
        PyStore × Nat × Nat × Nat × Stage).2.2.2.2).has_run =
      demoStage.has_run :=
  ⟨claim_C7_rerun_guard_never_armed.2.1,
   claim_C7_rerun_guard_never_armed.1 demoStage [] none none none _
     claim_C7_rerun_guard_never_armed.2.1⟩
